import Mathlib

/-!
Shallow embedding of the execution pipeline of the `dlv-for-obsidian`
plugin (`src/main.ts`).  Strings are modelled by Lean `String`/`List Char`;
the JavaScript regular-expression replacements of `cleanOutput` and
`cleanErrors` are implemented as explicit scanning functions.  Scanners
that may skip more than one character per step take an explicit fuel
argument, always called with the length of the input list, which is an
upper bound on the number of scanning steps.
-/

namespace DlvPlugin

/-- The JavaScript whitespace class `\s` restricted to the ASCII range
(space, tab, newline, carriage return, vertical tab, form feed). -/
def jsWs (c : Char) : Bool :=
  c == ' ' || c == '\t' || c == '\n' || c == '\r' || c == '\x0b' || c == '\x0c'

/-- Negation of `jsWs`, the `[^\s]` class. -/
def nonWs (c : Char) : Bool := !(jsWs c)

/-- JavaScript `String.prototype.trim` on character lists. -/
def trimChars (l : List Char) : List Char :=
  ((l.dropWhile jsWs).reverse.dropWhile jsWs).reverse

/-- JavaScript `String.prototype.trim`. -/
def trimJS (s : String) : String := ⟨trimChars s.data⟩

/-- JavaScript `String.prototype.toLowerCase` (ASCII range). -/
def lowerJS (s : String) : String := ⟨s.data.map Char.toLower⟩

/-- JavaScript `String.prototype.startsWith`. -/
def startsWithJS (s pre : String) : Bool := pre.data.isPrefixOf s.data

/-- JavaScript `String.prototype.split` with a one-character separator. -/
def splitChar (sep : Char) : List Char → List (List Char)
  | [] => [[]]
  | c :: rest =>
    if c == sep then [] :: splitChar sep rest
    else
      match splitChar sep rest with
      | [] => [[c]]
      | l :: ls => (c :: l) :: ls

/-- JavaScript `String.prototype.includes` on character lists. -/
def containsSub (pat : List Char) : List Char → Bool
  | [] => pat.isPrefixOf ([] : List Char)
  | c :: rest => pat.isPrefixOf (c :: rest) || containsSub pat rest

/-- Case-insensitive character comparison (the regex `i` flag). -/
def ciEq (a b : Char) : Bool := a.toLower == b.toLower

/-- The suffix of `l` that follows its last newline character. -/
def afterLastNL (l : List Char) : List Char :=
  (l.reverse.takeWhile (fun c => c != '\n')).reverse

/-- The regex `/^DLV \d+\.\d+\.\d+\s*\n/` of `cleanOutput`: when the string
starts with a version banner, return the remainder after the match
(`\s*\n` greedily ends at the last newline of the whitespace run that
follows the version number), else `none`. -/
def matchBanner (l : List Char) : Option (List Char) :=
  match l with
  | 'D' :: 'L' :: 'V' :: ' ' :: rest =>
    let d1 := rest.takeWhile Char.isDigit
    let r1 := rest.dropWhile Char.isDigit
    if d1.isEmpty then none else
    match r1 with
    | '.' :: r2 =>
      let d2 := r2.takeWhile Char.isDigit
      let r3 := r2.dropWhile Char.isDigit
      if d2.isEmpty then none else
      match r3 with
      | '.' :: r4 =>
        let d3 := r4.takeWhile Char.isDigit
        let r5 := r4.dropWhile Char.isDigit
        if d3.isEmpty then none else
        let w := r5.takeWhile jsWs
        let r6 := r5.dropWhile jsWs
        if w.contains '\n' then some (afterLastNL w ++ r6) else none
      | _ => none
    | _ => none
  | _ => none

/-- The pattern of the generic-warning regex of `cleanOutput`. -/
def gwPat : List Char := "Generic warning: ".data

/-- Consume `.*\n?`: drop the rest of the current line and the newline
terminating it, when present. -/
def dropToLineEnd (l : List Char) : List Char :=
  match l.dropWhile (fun c => c != '\n') with
  | [] => []
  | _ :: rest => rest

/-- Scanner for the global regex `/Generic warning: .*\n?/g`: every
occurrence is removed together with the rest of its line.  `fuel` bounds
the number of scanning steps; each step consumes at least one character,
so `l.length` is always enough. -/
def removeGWAux : Nat → List Char → List Char
  | 0, l => l
  | _ + 1, [] => []
  | fuel + 1, c :: rest =>
    if gwPat.isPrefixOf (c :: rest) then
      removeGWAux fuel (dropToLineEnd ((c :: rest).drop gwPat.length))
    else c :: removeGWAux fuel rest

/-- `/Generic warning: .*\n?/g` replacement by the empty string. -/
def removeGW (l : List Char) : List Char := removeGWAux l.length l

/-- `cleanOutput` of `src/main.ts`: strip a leading `DLV x.y.z` version
banner, remove all generic-warning lines, trim. -/
def cleanOutput (output : String) : String :=
  let afterBanner :=
    match matchBanner output.data with
    | some rest => rest
    | none => output.data
  trimJS ⟨removeGW afterBanner⟩

/-- `[A-Za-z]` of the file-path regex of `cleanErrors`. -/
def isAsciiLetter (c : Char) : Bool :=
  ('A' ≤ c && c ≤ 'Z') || ('a' ≤ c && c ≤ 'z')

/-- One attempt of the path regex `/([A-Za-z]:\\[^\s]+|\/[^\s]+)/` at the
head of the list: alternative 1 is a drive letter, `:`, `\` and a
non-empty run of non-whitespace; alternative 2 is `/` and a non-empty run
of non-whitespace.  On success return the remainder after the greedy
match. -/
def pathMatch (l : List Char) : Option (List Char) :=
  match l with
  | [] => none
  | c :: rest =>
    if isAsciiLetter c then
      match rest with
      | ':' :: '\\' :: d :: r2 =>
        if nonWs d then some (r2.dropWhile nonWs) else none
      | _ => none
    else if c == '/' then
      match rest with
      | d :: r2 => if nonWs d then some (r2.dropWhile nonWs) else none
      | [] => none
    else none

/-- Scanner for the global regex `/([A-Za-z]:\\[^\s]+|\/[^\s]+)/g` of
`cleanErrors`, replacing every matched rooted path token by the empty
string.  As with the JavaScript engine, scanning continues after the end
of a match and advances one character on failure. -/
def removePathsAux : Nat → List Char → List Char
  | 0, l => l
  | _ + 1, [] => []
  | fuel + 1, c :: rest =>
    match pathMatch (c :: rest) with
    | some r => removePathsAux fuel r
    | none => c :: removePathsAux fuel rest

/-- `/([A-Za-z]:\\[^\s]+|\/[^\s]+)/g` replacement by the empty string. -/
def removePaths (l : List Char) : List Char := removePathsAux l.length l

/-- The literal part of the temporary-file regex `/(dlv-temp-\d+\.asp)/gi`. -/
def dlvTempPat : List Char := "dlv-temp-".data

/-- Case-insensitive prefix test. -/
def ciStarts : List Char → List Char → Bool
  | [], _ => true
  | _ :: _, [] => false
  | p :: ps, c :: cs => ciEq p c && ciStarts ps cs

/-- Try to match `dlv-temp-\d+\.asp` case-insensitively at the head of
`l`; on success return the remainder after the match. -/
def matchDlvTemp (l : List Char) : Option (List Char) :=
  if ciStarts dlvTempPat l then
    let r := l.drop dlvTempPat.length
    let ds := r.takeWhile Char.isDigit
    let r2 := r.dropWhile Char.isDigit
    if ds.isEmpty then none else
    match r2 with
    | '.' :: a :: b :: p :: r3 =>
      if ciEq a 'a' && ciEq b 's' && ciEq p 'p' then some r3 else none
    | _ => none
  else none

/-- Scanner for `/(dlv-temp-\d+\.asp)/gi`, replacing each match by the
placeholder `Input`. -/
def replaceDlvTempAux : Nat → List Char → List Char
  | 0, l => l
  | _ + 1, [] => []
  | fuel + 1, c :: rest =>
    match matchDlvTemp (c :: rest) with
    | some r3 => "Input".data ++ replaceDlvTempAux fuel r3
    | none => c :: replaceDlvTempAux fuel rest

/-- `/(dlv-temp-\d+\.asp)/gi` replacement by `Input`. -/
def replaceDlvTemp (l : List Char) : List Char := replaceDlvTempAux l.length l

/-- Try to match `line \d+:` case-insensitively at the head of `l`.  On
success return the text of capture group `(line \d+)` in its original
case together with the remainder after the colon. -/
def matchLineAt (l : List Char) : Option (List Char × List Char) :=
  match l with
  | c1 :: c2 :: c3 :: c4 :: ' ' :: r =>
    if ciEq c1 'l' && ciEq c2 'i' && ciEq c3 'n' && ciEq c4 'e' then
      let ds := r.takeWhile Char.isDigit
      let r2 := r.dropWhile Char.isDigit
      if ds.isEmpty then none else
      match r2 with
      | ':' :: r3 => some (c1 :: c2 :: c3 :: c4 :: ' ' :: ds, r3)
      | _ => none
    else none
  | _ => none

/-- Leftmost match of `/(line \d+):/i` in `l`, as used by
`line.match(/(line \d+):\s*(.*)/i)` (the trailing `\s*(.*)` always
matches the rest of the line). -/
def findLineMatch : List Char → Option (List Char × List Char)
  | [] => none
  | c :: rest =>
    match matchLineAt (c :: rest) with
    | some x => some x
    | none => findLineMatch rest

/-- The replacement `/^.*?:\s*/ → ''` applied to capture group 2: when
the text contains a colon, drop everything through the first colon and
the whitespace after it. -/
def stripThroughColon (l : List Char) : List Char :=
  if l.contains ':' then
    ((l.dropWhile (fun c => c != ':')).drop 1).dropWhile jsWs
  else l

/-- Noise pattern `Command failed:`. -/
def cfPat : List Char := "Command failed:".data

/-- Noise pattern `Aborting due to`. -/
def abPat : List Char := "Aborting due to".data

/-- The per-line map of `cleanErrors`: remove rooted path tokens, replace
temporary-file names, then either rebuild the line from the groups of
`/(line \d+):\s*(.*)/i` or drop it when it is a known noise line. -/
def mapErrorLine (line : List Char) : List Char :=
  let step1 := removePaths line
  let step2 := replaceDlvTemp step1
  match findLineMatch step2 with
  | some (g1, r3) =>
    let g2 := r3.dropWhile jsWs
    g1 ++ (':' :: ' ' :: stripThroughColon g2)
  | none =>
    if containsSub cfPat step2 || containsSub abPat step2 then [] else step2

/-- The insertion text of the replacement `/(line \d+):/gi → 'Errore:\n$1'`. -/
def erroreIns : List Char := "Errore:\n".data

/-- Scanner for the global replacement `/(line \d+):/gi → 'Errore:\n$1'`:
each match `line N:` is replaced by `Errore:\nline N` (capture group 1
keeps its original case; the matched colon is not part of group 1 and is
dropped). -/
def lineColonAux : Nat → List Char → List Char
  | 0, l => l
  | _ + 1, [] => []
  | fuel + 1, c :: rest =>
    match matchLineAt (c :: rest) with
    | some (g1, r3) => erroreIns ++ g1 ++ lineColonAux fuel r3
    | none => c :: lineColonAux fuel rest

/-- `/(line \d+):/gi → 'Errore:\n$1'`. -/
def lineColon (l : List Char) : List Char := lineColonAux l.length l

/-- The replacement `/[.:]+$/ → ''`: strip trailing dots and colons. -/
def stripTrailingPunct (l : List Char) : List Char :=
  (l.reverse.dropWhile (fun c => c == '.' || c == ':')).reverse

/-- `cleanErrors` of `src/main.ts`. -/
def cleanErrors (errorOutput : String) : String :=
  let lines := (splitChar '\n' errorOutput.data).map mapErrorLine
  let kept := lines.filter (fun l => !(trimChars l).isEmpty)
  let joined := List.intercalate [ '\n' ] kept
  trimJS ⟨stripTrailingPunct (lineColon joined)⟩

/-! ### Settings, language matching, argument list -/

/-- `dlvLocationType` of `DlvPluginSettings`. -/
inductive DlvLocationType where
  | absolute
  | relative
deriving Repr, DecidableEq

/-- The `DlvPluginSettings` interface of `src/main.ts` (timeout in
milliseconds, as in the source). -/
structure DlvPluginSettings where
  dlvLocationType : DlvLocationType
  absolutePath : String
  relativeExecutable : String
  availableExecutables : List String
  executionTimeout : Nat
  customExtensions : String
  showErrors : Bool
  showAllModels : Bool
  hideFacts : Bool
  cacheResults : Bool
deriving Repr, DecidableEq

/-- `DEFAULT_SETTINGS` of `src/main.ts`. -/
def DEFAULT_SETTINGS : DlvPluginSettings :=
  { dlvLocationType := .relative
    absolutePath := ""
    relativeExecutable := "executables/dlv.exe"
    availableExecutables := []
    executionTimeout := 0
    customExtensions := "asp"
    showErrors := false
    showAllModels := false
    hideFacts := false
    cacheResults := true }

/-- The extension-token list `customExtensions.split(",").map(e =>
e.trim().toLowerCase())` used by `isSupportedLanguage` (note: empty
tokens are not filtered out there). -/
def extTokens (customExtensions : String) : List String :=
  (splitChar ',' customExtensions.data).map (fun l => lowerJS (trimJS ⟨l⟩))

/-- `isSupportedLanguage` of `src/main.ts`, with the plugin's
`settings.customExtensions` passed explicitly. -/
def isSupportedLanguage (customExtensions lang : String) : Bool :=
  (extTokens customExtensions).any (fun e =>
    lowerJS lang == e || startsWithJS (lowerJS lang) (e ++ "."))

/-- `getDlvPath` of `src/main.ts`; `path.join` is modelled as
concatenation with a `/` separator. -/
def getDlvPath (pluginPath : String) (s : DlvPluginSettings) : String :=
  match s.dlvLocationType with
  | .absolute => s.absolutePath
  | .relative => pluginPath ++ "/" ++ s.relativeExecutable

/-- The temporary artifact name `dlv-temp-${Date.now()}.${lang}`. -/
def tmpFileName (now : Nat) (lang : String) : String :=
  "dlv-temp-" ++ Nat.repr now ++ "." ++ lang

/-- `path.join(os.tmpdir(), ...)` for the temporary artifact. -/
def tmpFilePath (tmpDir : String) (now : Nat) (lang : String) : String :=
  tmpDir ++ "/" ++ tmpFileName now lang

/-- The invocation argument list of `executeDlv`, built exactly as in the
source: start from `[tmpFile]`, push `-n 0` when `showAllModels`, push
`--no-facts` when `hideFacts`. -/
def buildArgs (s : DlvPluginSettings) (tmpFile : String) : List String :=
  let args := [tmpFile]
  let args := if s.showAllModels then args ++ ["-n", "0"] else args
  if s.hideFacts then args ++ ["--no-facts"] else args

/-! ### The execution engine -/

/-- The result record returned by `executeDlv`; it has exactly the two
fields `stdout` and `stderr`. -/
structure ExecutionResult where
  stdout : String
  stderr : String
deriving Repr, DecidableEq

/-- Behaviour of the spawned solver process, supplied by the
environment: it either resolves with raw stdout/stderr or rejects with an
error message (spawn failure or non-zero exit). -/
inductive ProcOutcome where
  | completes (stdout stderr : String)
  | fails (msg : String)
deriving Repr, DecidableEq

/-- The environment of one `executeDlv` call: outcomes of the `fs`
operations, the clock value used for the temporary name, the behaviour
and duration (ms) of the spawned process, and the time at which the
externally supplied `AbortSignal` fires, if it does. -/
structure ExecEnv where
  accessError : Option String
  writeError : Option String
  tmpDir : String
  now : Nat
  procDuration : Nat
  procOutcome : ProcOutcome
  abortTime : Option Nat
  unlinkFails : Bool
deriving Repr, DecidableEq

/-- Which of the racing events settles the awaited process first. -/
inductive RaceWinner where
  | completion
  | abort
  | timeout
deriving Repr, DecidableEq

/-- Resolution of the race between process completion (at `d`), the
external abort (at `abortAt`, which triggers `controller.abort()` and
rejects the exec promise), and the timeout timer (at `timeoutMs`, armed
only when `timeoutMs > 0`).  Ties are broken in favour of completion,
then abort. -/
def raceWinner (timeoutMs d : Nat) (abortAt : Option Nat) : RaceWinner :=
  match abortAt with
  | some a =>
    if a < d ∧ (timeoutMs = 0 ∨ a ≤ timeoutMs) then .abort
    else if 0 < timeoutMs ∧ timeoutMs < d then .timeout
    else .completion
  | none => if 0 < timeoutMs ∧ timeoutMs < d then .timeout else .completion

/-- Observable trace of one `executeDlv` call: the returned result (the
function always returns; every exception is caught) together with the
facts about the run needed by the claims. -/
structure ExecTrace where
  result : ExecutionResult
  dlvPath : String
  tmpPath : Option String
  tmpContent : Option String
  args : Option (List String)
  unlinkAttempted : Bool
  controllerAborted : Bool
  processSpawned : Bool
  processRunningAtReturn : Bool
deriving Repr, DecidableEq

/-- `executeDlv` of `src/main.ts` over the explicit environment.  The
`try` block is modelled branch by branch; the `catch` block turns every
rejection into a result with empty `stdout` and the error message as
`stderr` (`"Execution aborted"` when `controller.signal.aborted`).  The
temporary file is unlinked (with its own failure swallowed by
`.catch(() => \x7b\x7d)`) only on the line preceding the successful
return. -/
def executeDlv (pluginPath : String) (settings : DlvPluginSettings)
    (content lang : String) (env : ExecEnv) : ExecTrace :=
  let dlvPath := getDlvPath pluginPath settings
  match env.accessError with
  | some msg =>
    { result := { stdout := "", stderr := msg }
      dlvPath := dlvPath, tmpPath := none, tmpContent := none
      args := none, unlinkAttempted := false
      controllerAborted := false, processSpawned := false
      processRunningAtReturn := false }
  | none =>
    let tmpFile := tmpFilePath env.tmpDir env.now lang
    match env.writeError with
    | some msg =>
      { result := { stdout := "", stderr := msg }
        dlvPath := dlvPath, tmpPath := none, tmpContent := none
        args := none, unlinkAttempted := false
        controllerAborted := false, processSpawned := false
        processRunningAtReturn := false }
    | none =>
      let args := buildArgs settings tmpFile
      match raceWinner settings.executionTimeout env.procDuration env.abortTime with
      | .abort =>
        { result := { stdout := "", stderr := "Execution aborted" }
          dlvPath := dlvPath, tmpPath := some tmpFile, tmpContent := some content
          args := some args, unlinkAttempted := false
          controllerAborted := true, processSpawned := true
          processRunningAtReturn := false }
      | .timeout =>
        { result := { stdout := "", stderr := "Execution timeout" }
          dlvPath := dlvPath, tmpPath := some tmpFile, tmpContent := some content
          args := some args, unlinkAttempted := false
          controllerAborted := false, processSpawned := true
          processRunningAtReturn := true }
      | .completion =>
        match env.procOutcome with
        | .completes out err =>
          { result := { stdout := cleanOutput out, stderr := cleanErrors err }
            dlvPath := dlvPath, tmpPath := some tmpFile, tmpContent := some content
            args := some args, unlinkAttempted := true
            controllerAborted := false, processSpawned := true
            processRunningAtReturn := false }
        | .fails msg =>
          { result := { stdout := "", stderr := msg }
            dlvPath := dlvPath, tmpPath := some tmpFile, tmpContent := some content
            args := some args, unlinkAttempted := false
            controllerAborted := false, processSpawned := true
            processRunningAtReturn := false }

/-- The failure message of one `executeDlv` call, `none` when the run
succeeds: the error of the first failing `fs` operation, or
`"Execution aborted"`/`"Execution timeout"` when abort or timeout wins
the race, or the rejection message of the process. -/
def execFailure (settings : DlvPluginSettings) (env : ExecEnv) : Option String :=
  match env.accessError with
  | some msg => some msg
  | none =>
    match env.writeError with
    | some msg => some msg
    | none =>
      match raceWinner settings.executionTimeout env.procDuration env.abortTime with
      | .abort => some "Execution aborted"
      | .timeout => some "Execution timeout"
      | .completion =>
        match env.procOutcome with
        | .fails msg => some msg
        | .completes _ _ => none

/-! ### Result sinks -/

/-- `stdout.trim().length > 0` as used by both result sinks. -/
def hasOutput (r : ExecutionResult) : Bool := !(trimJS r.stdout).data.isEmpty

/-- The error section rendered by `updateOutputUI` of `src/main.ts`:
`some` of the re-cleaned stderr text when the section is shown
(`(showErrors || !hasOutput) && hasErrors` with
`hasErrors = stderr.trim().length > 0`), `none` otherwise.  The
HTML wrapping of the section is elided. -/
def updateOutputUI (showErrors : Bool) (r : ExecutionResult) : Option String :=
  if (showErrors || !hasOutput r) && !(trimJS r.stderr).data.isEmpty then
    some (cleanErrors r.stderr)
  else none

/-- `lines.map(line => "% " + line).join("\n")` of `saveExecutionResult`. -/
def percentLines (s : String) : List Char :=
  List.intercalate [ '\n' ]
    ((splitChar '\n' s.data).map (fun l => '%' :: ' ' :: l))

/-- `saveExecutionResult` of `src/main.ts`: the text appended to the
active file (`"\n\n" + content.trim()`), for a given timestamp string.
The error section is added when `(showErrors || !hasOutput) &&
result.stderr` — note the truthiness test on the raw `stderr`. -/
def saveExecutionResult (showErrors : Bool) (timestamp : String)
    (r : ExecutionResult) : String :=
  let content := ("% " ++ timestamp ++ "\n").data
  let content :=
    if hasOutput r then content ++ "% AnswerSet\n".data ++ percentLines r.stdout
    else content
  let content :=
    if showErrors || !hasOutput r then
      if r.stderr ≠ "" then content ++ "\n% Errore\n".data ++ percentLines r.stderr
      else content
    else content
  "\n\n" ++ trimJS ⟨content⟩

/-- Whether the durable append contains a `% Errore` section marker. -/
def containsErrore (s : String) : Bool := containsSub "% Errore".data s.data

/-- The digit list (most significant first) that `Nat.toDigits 10`
produces, expressed through `Nat.digits`. -/
def digitList (n : Nat) : List Nat :=
  if n = 0 then [0] else (Nat.digits 10 n).reverse

/-! ### Helper lemmas -/

theorem length_dropWhile_le (P : Char → Bool) :
    ∀ l : List Char, (l.dropWhile P).length ≤ l.length := by
  intro l
  induction l with
  | nil => simp [List.dropWhile]
  | cons c rest ih =>
    rw [List.dropWhile_cons]
    cases hP : P c
    · simp
    · simpa using Nat.le_succ_of_le ih

theorem pathMatch_some_length {c : Char} {rest r : List Char}
    (h : pathMatch (c :: rest) = some r) : r.length ≤ rest.length := by
  simp only [pathMatch] at h
  split at h
  · split at h
    next d r2 =>
      split at h
      · cases h
        have h1 := length_dropWhile_le nonWs r2
        simp only [List.length_cons]
        omega
      · exact absurd h (by simp)
    next => exact absurd h (by simp)
  · split at h
    · split at h
      next d r2 =>
        split at h
        · cases h
          have h1 := length_dropWhile_le nonWs r2
          simp only [List.length_cons]
          omega
        · exact absurd h (by simp)
      next => exact absurd h (by simp)
    · exact absurd h (by simp)

theorem removePathsAux_congr :
    ∀ f₁ f₂ l, l.length ≤ f₁ → l.length ≤ f₂ →
      removePathsAux f₁ l = removePathsAux f₂ l := by
  intro f₁
  induction f₁ with
  | zero =>
    intro f₂ l h₁ _
    have hl : l = [] := List.length_eq_zero.mp (Nat.le_zero.mp h₁)
    subst hl
    cases f₂ <;> rfl
  | succ f ih =>
    intro f₂ l h₁ h₂
    cases l with
    | nil => cases f₂ <;> rfl
    | cons c rest =>
      cases f₂ with
      | zero => simp at h₂
      | succ f₂' =>
        have hr₁ : rest.length ≤ f := by simp at h₁; omega
        have hr₂ : rest.length ≤ f₂' := by simp at h₂; omega
        simp only [removePathsAux]
        cases hm : pathMatch (c :: rest) with
        | some r =>
          have hr := pathMatch_some_length hm
          exact ih f₂' r (le_trans hr hr₁) (le_trans hr hr₂)
        | none => rw [ih f₂' rest hr₁ hr₂]

theorem dropWhile_append_all (P : Char → Bool) :
    ∀ (xs ys : List Char), (∀ c ∈ xs, P c = true) →
      (xs ++ ys).dropWhile P = ys.dropWhile P := by
  intro xs ys h
  induction xs with
  | nil => rfl
  | cons c rest ih =>
    rw [List.cons_append, List.dropWhile_cons, h c (List.mem_cons_self c rest)]
    exact ih (fun d hd => h d (List.mem_cons_of_mem c hd))

theorem dropWhile_append_stop (P : Char → Bool) :
    ∀ (xs ys : List Char), (∃ d ∈ xs, P d = false) →
      (xs ++ ys).dropWhile P = xs.dropWhile P ++ ys := by
  intro xs ys h
  induction xs with
  | nil => simp at h
  | cons c rest ih =>
    rw [List.cons_append, List.dropWhile_cons, List.dropWhile_cons]
    cases hP : P c
    · simp
    · obtain ⟨d, hd, hPd⟩ := h
      rcases List.mem_cons.mp hd with rfl | hd'
      · rw [hP] at hPd; cases hPd
      · simpa using ih ⟨d, hd', hPd⟩

theorem trimChars_keeps_infix (a p b : List Char)
    (ha : ∃ d ∈ a, jsWs d = false) (hb : ∃ d ∈ b, jsWs d = false) :
    p <:+: trimChars (a ++ p ++ b) := by
  unfold trimChars
  rw [List.append_assoc, dropWhile_append_stop jsWs a (p ++ b) ha,
    ← List.append_assoc]
  rw [List.reverse_append, List.reverse_append]
  rw [dropWhile_append_stop jsWs b.reverse _
    (by obtain ⟨d, hd, hw⟩ := hb; exact ⟨d, List.mem_reverse.mpr hd, hw⟩)]
  rw [List.reverse_append, List.reverse_append, List.reverse_reverse,
    List.reverse_reverse]
  exact ⟨(a.dropWhile jsWs), ((b.reverse.dropWhile jsWs).reverse), rfl⟩

theorem splitChar_eq_single (sep : Char) :
    ∀ l, (∀ c ∈ l, (c == sep) = false) → splitChar sep l = [l] := by
  intro l h
  induction l with
  | nil => rfl
  | cons c rest ih =>
    rw [splitChar, h c (List.mem_cons_self c rest),
      ih (fun d hd => h d (List.mem_cons_of_mem c hd))]
    simp

theorem splitChar_ne_nil (sep : Char) : ∀ l, splitChar sep l ≠ [] := by
  intro l
  induction l with
  | nil => simp [splitChar]
  | cons c rest ih =>
    rw [splitChar]
    cases hc : (c == sep)
    · simp only [Bool.false_eq_true, if_false]
      cases hs : splitChar sep rest with
      | nil => exact absurd hs ih
      | cons a as => simp
    · simp

theorem containsSub_eq_true_iff (p : List Char) :
    ∀ l, containsSub p l = true ↔ p <:+: l := by
  intro l
  induction l with
  | nil => simp [containsSub, List.isPrefixOf_iff_prefix]
  | cons c rest ih =>
    rw [containsSub, Bool.or_eq_true, List.isPrefixOf_iff_prefix, ih,
      List.infix_cons_iff]

theorem percentLines_shape (s : String) :
    ∃ τ, percentLines s = '%' :: ' ' :: τ := by
  unfold percentLines
  cases hsp : splitChar '\n' s.data with
  | nil => exact absurd hsp (splitChar_ne_nil '\n' s.data)
  | cons l0 ls =>
    cases ls with
    | nil => exact ⟨l0, by simp [List.intercalate]⟩
    | cons l1 ls2 =>
      exact ⟨l0 ++ '\n' ::
        List.intercalate [ '\n' ] ((l1 :: ls2).map (fun l => '%' :: ' ' :: l)),
        by simp [List.intercalate, List.intersperse]⟩

theorem stringDataInj {s t : String} (h : s.data = t.data) : s = t := by
  cases s
  cases t
  exact congrArg String.mk h

theorem toDigitsCore_eq (n : Nat) : ∀ f l, n < f →
    Nat.toDigitsCore 10 f n l = (digitList n).map Nat.digitChar ++ l := by
  induction n using Nat.strong_induction_on with
  | _ n ih =>
    intro f l hf
    cases f with
    | zero => omega
    | succ f' =>
      simp only [Nat.toDigitsCore]
      by_cases h0 : n / 10 = 0
      · rw [if_pos h0]
        by_cases hn : n = 0
        · subst hn
          simp [digitList]
        · have hlt : n < 10 := by
            by_contra hge
            have : 1 ≤ n / 10 := (Nat.one_le_div_iff (by norm_num)).mpr (by omega)
            omega
          rw [digitList, if_neg hn,
            Nat.digits_def' (by norm_num : (1 : Nat) < 10) (Nat.pos_of_ne_zero hn),
            h0]
          simp [Nat.mod_eq_of_lt hlt]
      · rw [if_neg h0]
        have hn : n ≠ 0 := by
          intro h
          subst h
          simp at h0
        have hlt : n / 10 < n := Nat.div_lt_self (Nat.pos_of_ne_zero hn) (by norm_num)
        have hf' : n / 10 < f' := by omega
        rw [ih (n / 10) hlt f' (Nat.digitChar (n % 10) :: l) hf']
        rw [digitList, digitList, if_neg h0, if_neg hn,
          Nat.digits_def' (by norm_num : (1 : Nat) < 10) (Nat.pos_of_ne_zero hn)]
        simp

theorem repr_data_eq (n : Nat) :
    (Nat.repr n).data = (digitList n).map Nat.digitChar := by
  show (Nat.toDigitsCore 10 (n + 1) n []).asString.data = _
  rw [toDigitsCore_eq n (n + 1) [] (Nat.lt_succ_self n)]
  simp [List.asString]

theorem digitChar_toNat {d : Nat} (h : d < 10) : (Nat.digitChar d).toNat = d + 48 := by
  interval_cases d <;> decide

theorem digitList_mem_lt (n : Nat) : ∀ d ∈ digitList n, d < 10 := by
  intro d hd
  by_cases hn : n = 0
  · subst hn
    simp [digitList] at hd
    omega
  · rw [digitList, if_neg hn] at hd
    exact Nat.digits_lt_base (by norm_num) (List.mem_reverse.mp hd)

theorem map_digitChar_inj :
    ∀ (xs ys : List Nat), (∀ x ∈ xs, x < 10) → (∀ y ∈ ys, y < 10) →
      xs.map Nat.digitChar = ys.map Nat.digitChar → xs = ys := by
  intro xs
  induction xs with
  | nil =>
    intro ys _ _ h
    cases ys with
    | nil => rfl
    | cons y ys => simp at h
  | cons x xs ih =>
    intro ys hx hy h
    cases ys with
    | nil => simp at h
    | cons y ys =>
      simp only [List.map_cons, List.cons.injEq] at h
      obtain ⟨h1, h2⟩ := h
      have hx0 := hx x (List.mem_cons_self x xs)
      have hy0 := hy y (List.mem_cons_self y ys)
      have hnum : x + 48 = y + 48 := by
        rw [← digitChar_toNat hx0, ← digitChar_toNat hy0, h1]
      have hxy : x = y := by omega
      subst hxy
      rw [ih ys (fun a ha => hx a (List.mem_cons_of_mem x ha))
        (fun a ha => hy a (List.mem_cons_of_mem x ha)) h2]

theorem digitList_inj : ∀ m n : Nat, digitList m = digitList n → m = n := by
  have key : ∀ n : Nat, n ≠ 0 → (Nat.digits 10 n).reverse ≠ [0] := by
    intro n hn h
    have hd : Nat.digits 10 n = [0] := by
      have := congrArg List.reverse h
      simpa using this
    have h0 := Nat.ofDigits_digits 10 n
    rw [hd] at h0
    simp [Nat.ofDigits] at h0
    omega
  intro m n h
  simp only [digitList] at h
  by_cases hm : m = 0 <;> by_cases hn : n = 0
  · omega
  · rw [if_pos hm, if_neg hn] at h
    exact absurd h.symm (key n hn)
  · rw [if_neg hm, if_pos hn] at h
    exact absurd h (key m hm)
  · rw [if_neg hm, if_neg hn] at h
    have hdig : Nat.digits 10 m = Nat.digits 10 n := by
      have := congrArg List.reverse h
      simpa using this
    have h2 := congrArg (Nat.ofDigits 10) hdig
    rw [Nat.ofDigits_digits, Nat.ofDigits_digits] at h2
    exact_mod_cast h2

theorem repr_inj : ∀ m n : Nat, Nat.repr m = Nat.repr n → m = n := by
  intro m n h
  have hd := congrArg String.data h
  rw [repr_data_eq, repr_data_eq] at hd
  exact digitList_inj m n
    (map_digitChar_inj _ _ (digitList_mem_lt m) (digitList_mem_lt n) hd)

theorem repr_no_dot (n : Nat) : ∀ c ∈ (Nat.repr n).data, c ≠ '.' := by
  intro c hc
  rw [repr_data_eq] at hc
  obtain ⟨d, hd, rfl⟩ := List.mem_map.mp hc
  have hlt := digitList_mem_lt n d hd
  intro he
  have h1 := digitChar_toNat hlt
  rw [he] at h1
  have h2 : ('.' : Char).toNat = 46 := rfl
  omega

theorem append_dot_inj :
    ∀ (a₁ a₂ b₁ b₂ : List Char), (∀ c ∈ a₁, c ≠ '.') → (∀ c ∈ a₂, c ≠ '.') →
      a₁ ++ '.' :: b₁ = a₂ ++ '.' :: b₂ → a₁ = a₂ ∧ b₁ = b₂ := by
  intro a₁
  induction a₁ with
  | nil =>
    intro a₂ b₁ b₂ _ h₂ h
    cases a₂ with
    | nil => simpa using h
    | cons c a₂ =>
      simp only [List.nil_append, List.cons_append, List.cons.injEq] at h
      exact absurd h.1.symm (h₂ c (List.mem_cons_self c a₂))
  | cons c a₁ ih =>
    intro a₂ b₁ b₂ h₁ h₂ h
    cases a₂ with
    | nil =>
      simp only [List.cons_append, List.nil_append, List.cons.injEq] at h
      exact absurd h.1 (h₁ c (List.mem_cons_self c a₁))
    | cons d a₂ =>
      simp only [List.cons_append, List.cons.injEq] at h
      obtain ⟨rfl, h'⟩ := h
      obtain ⟨e1, e2⟩ := ih a₂ b₁ b₂
        (fun x hx => h₁ x (List.mem_cons_of_mem c hx))
        (fun x hx => h₂ x (List.mem_cons_of_mem c hx)) h'
      exact ⟨by rw [e1], e2⟩

theorem tmpFileName_eq_iff (t₁ t₂ : Nat) (l₁ l₂ : String) :
    tmpFileName t₁ l₁ = tmpFileName t₂ l₂ ↔ t₁ = t₂ ∧ l₁ = l₂ := by
  constructor
  · intro h
    have hd := congrArg String.data h
    simp only [tmpFileName, String.data_append, List.append_assoc,
      List.singleton_append] at hd
    have hd' := List.append_cancel_left hd
    obtain ⟨e1, e2⟩ := append_dot_inj _ _ _ _ (repr_no_dot t₁) (repr_no_dot t₂) hd'
    exact ⟨repr_inj t₁ t₂ (stringDataInj e1), stringDataInj e2⟩
  · rintro ⟨rfl, rfl⟩
    rfl


theorem lowerJS_preserves_dot_head (lang : String)
    (hd : startsWithJS lang "." = true) : startsWithJS (lowerJS lang) "." = true := by
  obtain ⟨ld⟩ := lang
  cases ld with
  | nil => exact absurd hd (by decide)
  | cons c cs =>
    have hc : '.' = c := by
      simpa [startsWithJS, List.isPrefixOf, beq_iff_eq] using hd
    simp [startsWithJS, lowerJS, List.isPrefixOf, ← hc]

/-! ### Claim theorems -/

/-- C3 counterexample: neither sanitizer is idempotent — a second
application of `cleanOutput` strips a version banner that trimming
exposed, and a second application of `cleanErrors` strips trailing
punctuation that trimming exposed. -/
theorem sanitizers_not_idempotent :
    cleanOutput (cleanOutput " DLV 1.2.3\nfoo") ≠ cleanOutput " DLV 1.2.3\nfoo"
    ∧ cleanErrors (cleanErrors "a: ") ≠ cleanErrors "a: " := by
  decide

/-- C3 (corrected): the sanitizers are not idempotent.  Trimming can
expose a leading `DLV x.y.z` banner (stripped only at position 0) that a
second `cleanOutput` pass removes, and trimming can expose trailing
punctuation that a second `cleanErrors` pass removes via `/[.:]+$/`. -/
theorem sanitizers_second_application :
    cleanOutput " DLV 1.2.3\nfoo" = "DLV 1.2.3\nfoo"
    ∧ cleanOutput "DLV 1.2.3\nfoo" = "foo"
    ∧ cleanErrors "a: " = "a:"
    ∧ cleanErrors "a:" = "a" := by
  decide

/-- C6 counterexample: the language tag `asp` does not match the
configured extension `asp.variant` — the dotted-prefix test runs in the
opposite direction (`lang.startsWith(ext + ".")`). -/
theorem tag_does_not_match_dotted_extension :
    isSupportedLanguage "asp.variant" "asp" = false := by
  decide

/-- C6 (corrected): a language tag is supported exactly when, lower-cased,
it equals a configured extension token or the token followed by a dot is a
prefix of the tag.  Concretely, tag `asp` matches extension `asp`,
tag `asp.variant` matches extension `asp`, but tag `asp` matches neither
extension `asp.variant` nor `aspx`. -/
theorem isSupportedLanguage_characterization :
    (∀ exts lang, isSupportedLanguage exts lang = true ↔
      ∃ e ∈ extTokens exts,
        lowerJS lang = e ∨ startsWithJS (lowerJS lang) (e ++ ".") = true)
    ∧ isSupportedLanguage "asp" "asp" = true
    ∧ isSupportedLanguage "asp" "asp.variant" = true
    ∧ isSupportedLanguage "asp.variant" "asp" = false
    ∧ isSupportedLanguage "aspx" "asp" = false := by
  refine ⟨?_, by decide, by decide, by decide, by decide⟩
  intro exts lang
  simp [isSupportedLanguage, List.any_eq_true, Bool.or_eq_true, beq_iff_eq]

/-- C9 (confirmed): for every settings configuration the invocation
argument list is exactly the artifact path, then `-n 0` iff
`showAllModels` is set, then `--no-facts` iff `hideFacts` is set, with no
other arguments; whenever `executeDlv` spawns the process it passes
exactly this list for the temporary artifact path. -/
theorem buildArgs_exact_order (s : DlvPluginSettings)
    (f pluginPath content lang : String) (env : ExecEnv) :
    buildArgs s f =
      [f] ++ (if s.showAllModels then ["-n", "0"] else [])
          ++ (if s.hideFacts then ["--no-facts"] else [])
    ∧ ((executeDlv pluginPath s content lang env).processSpawned = true →
        (executeDlv pluginPath s content lang env).args =
          some (buildArgs s (tmpFilePath env.tmpDir env.now lang))) := by
  refine ⟨?_, ?_⟩
  · cases hA : s.showAllModels <;> cases hB : s.hideFacts <;>
      simp [buildArgs, hA, hB]
  · rcases hacc : env.accessError with _ | msg <;>
      rcases hw : env.writeError with _ | msg2 <;>
      rcases hr : raceWinner s.executionTimeout env.procDuration env.abortTime <;>
      rcases ho : env.procOutcome with ⟨out, err⟩ | msg3 <;>
      simp [executeDlv, hacc, hw, hr, ho]

/-- C9 witness: a concrete spawned run passes exactly the built list. -/
theorem buildArgs_exact_order_witness :
    (executeDlv "/plug" DEFAULT_SETTINGS "a." "asp"
      { accessError := none, writeError := none, tmpDir := "/tmp", now := 5
        procDuration := 3, procOutcome := .completes "x" "", abortTime := none
        unlinkFails := false }).args =
      some (buildArgs DEFAULT_SETTINGS (tmpFilePath "/tmp" 5 "asp")) :=
  (buildArgs_exact_order DEFAULT_SETTINGS "f" "/plug" "a." "asp"
    { accessError := none, writeError := none, tmpDir := "/tmp", now := 5
      procDuration := 3, procOutcome := .completes "x" "", abortTime := none
      unlinkFails := false }).2 (by decide)

/-- C10 (confirmed): when the configured comma-separated extension list
contains an empty token (e.g. a trailing comma as in `asp,`), the empty
language tag is supported, and so is every tag beginning with a dot,
because the empty token makes the dotted-prefix test reduce to
`startsWith "."`. -/
theorem empty_ext_token_effect (exts lang : String) (h : "" ∈ extTokens exts) :
    isSupportedLanguage exts "" = true
    ∧ (startsWithJS lang "." = true → isSupportedLanguage exts lang = true) := by
  constructor
  · rw [isSupportedLanguage, List.any_eq_true]
    exact ⟨"", h, by decide⟩
  · intro hd
    rw [isSupportedLanguage, List.any_eq_true]
    refine ⟨"", h, ?_⟩
    have hpre := lowerJS_preserves_dot_head lang hd
    have hcat : (("" ++ ".") : String) = "." := by decide
    rw [hcat]
    simp [hpre]

/-- C10 witness: the concrete configuration `asp,` supports the empty tag
and the tag `.foo`. -/
theorem empty_ext_token_effect_witness :
    isSupportedLanguage "asp," "" = true ∧ isSupportedLanguage "asp," ".foo" = true :=
  ⟨(empty_ext_token_effect "asp," ".foo" (by decide)).1,
   (empty_ext_token_effect "asp," ".foo" (by decide)).2 (by decide)⟩

/-- C1 (confirmed): `executeDlv` always returns a result record — every
failure (missing/unconfigured executable, filesystem failure, external
abort, timeout, spawn error or non-zero exit) is encoded as
`stdout = ""` with the failure's message as `stderr`, and a successful
run returns the sanitized process output. -/
theorem executeDlv_total_error_encoding (pluginPath : String)
    (s : DlvPluginSettings) (content lang : String) (env : ExecEnv) :
    (∀ msg, execFailure s env = some msg →
      (executeDlv pluginPath s content lang env).result =
        { stdout := "", stderr := msg })
    ∧ (execFailure s env = none → ∃ out err,
        env.procOutcome = ProcOutcome.completes out err ∧
        (executeDlv pluginPath s content lang env).result =
          { stdout := cleanOutput out, stderr := cleanErrors err }) := by
  rcases hacc : env.accessError with _ | m1 <;>
    rcases hw : env.writeError with _ | m2 <;>
    rcases hr : raceWinner s.executionTimeout env.procDuration env.abortTime <;>
    rcases ho : env.procOutcome with ⟨out, err⟩ | m3 <;>
    constructor <;>
    simp [executeDlv, execFailure, hacc, hw, hr, ho] <;>
    exact ⟨out, err, ⟨rfl, rfl⟩, rfl, rfl⟩

/-- C1 witness: a run with a failing executable access returns the
failure message with empty stdout. -/
theorem executeDlv_total_error_encoding_witness :
    (executeDlv "/plug" DEFAULT_SETTINGS "a." "asp"
      { accessError := some "ENOENT: no such file", writeError := none
        tmpDir := "/tmp", now := 0, procDuration := 0
        procOutcome := .completes "" "", abortTime := none
        unlinkFails := false }).result =
      { stdout := "", stderr := "ENOENT: no such file" } :=
  (executeDlv_total_error_encoding "/plug" DEFAULT_SETTINGS "a." "asp"
    { accessError := some "ENOENT: no such file", writeError := none
      tmpDir := "/tmp", now := 0, procDuration := 0
      procOutcome := .completes "" "", abortTime := none
      unlinkFails := false }).1 "ENOENT: no such file" (by decide)

/-- C2 counterexample: with a 100 ms timeout against a 200 ms process and
no external abort, `executeDlv` returns `Execution timeout` in `stderr`
but the timeout path never aborts the cancellation token — the spawned
process is still running when the result is returned, contradicting the
claimed cancellation-on-timeout (the result record also has no `aborted`
field at all). -/
theorem timeout_does_not_cancel_process :
    ((executeDlv "/plug" { DEFAULT_SETTINGS with executionTimeout := 100 }
      "a." "asp"
      { accessError := none, writeError := none, tmpDir := "/tmp", now := 0
        procDuration := 200, procOutcome := .completes "late" ""
        abortTime := none, unlinkFails := false }).result =
      { stdout := "", stderr := "Execution timeout" })
    ∧ (executeDlv "/plug" { DEFAULT_SETTINGS with executionTimeout := 100 }
      "a." "asp"
      { accessError := none, writeError := none, tmpDir := "/tmp", now := 0
        procDuration := 200, procOutcome := .completes "late" ""
        abortTime := none, unlinkFails := false }).controllerAborted = false
    ∧ (executeDlv "/plug" { DEFAULT_SETTINGS with executionTimeout := 100 }
      "a." "asp"
      { accessError := none, writeError := none, tmpDir := "/tmp", now := 0
        procDuration := 200, procOutcome := .completes "late" ""
        abortTime := none, unlinkFails := false }).processRunningAtReturn
      = true := by
  decide

/-- C2 (corrected): with `executionTimeout = T > 0` against a process
running longer than T (and no earlier external abort), the result is
`stdout = ""`, `stderr = "Execution timeout"`; but the timeout does not
cancel the spawned process — the cancellation token stays un-aborted and
the process is still running when `executeDlv` returns — and the result
record carries no `aborted` field. -/
theorem executeDlv_timeout_reports (pluginPath : String)
    (s : DlvPluginSettings) (content lang : String) (env : ExecEnv)
    (hT : 0 < s.executionTimeout) (hd : s.executionTimeout < env.procDuration)
    (hab : env.abortTime = none) (hacc : env.accessError = none)
    (hw : env.writeError = none) :
    (executeDlv pluginPath s content lang env).result =
      { stdout := "", stderr := "Execution timeout" }
    ∧ (executeDlv pluginPath s content lang env).controllerAborted = false
    ∧ (executeDlv pluginPath s content lang env).processRunningAtReturn = true := by
  have hr : raceWinner s.executionTimeout env.procDuration env.abortTime =
      RaceWinner.timeout := by
    simp [raceWinner, hab, hT, hd]
  simp [executeDlv, hacc, hw, hr]

/-- C2 witness: the amended statement at the concrete 100 ms / 200 ms run. -/
theorem executeDlv_timeout_reports_witness :
    (executeDlv "/p" { DEFAULT_SETTINGS with executionTimeout := 100 } "a." "asp"
      { accessError := none, writeError := none, tmpDir := "/tmp", now := 0
        procDuration := 200, procOutcome := .completes "late" ""
        abortTime := none, unlinkFails := false }).result =
      { stdout := "", stderr := "Execution timeout" } :=
  (executeDlv_timeout_reports "/p"
    { DEFAULT_SETTINGS with executionTimeout := 100 } "a." "asp"
    { accessError := none, writeError := none, tmpDir := "/tmp", now := 0
      procDuration := 200, procOutcome := .completes "late" ""
      abortTime := none, unlinkFails := false }
    (by decide) (by decide) rfl rfl rfl).1

/-- C4 counterexample: when the spawned process rejects (spawn error or
non-zero exit), the temporary artifact was created but its deletion is
never attempted — `fs.unlink` sits only on the success path. -/
theorem unlink_skipped_on_process_failure :
    ((executeDlv "/plug" DEFAULT_SETTINGS "a." "asp"
      { accessError := none, writeError := none, tmpDir := "/tmp", now := 0
        procDuration := 3, procOutcome := .fails "Command failed: dlv"
        abortTime := none, unlinkFails := false }).tmpPath ≠ none)
    ∧ (executeDlv "/plug" DEFAULT_SETTINGS "a." "asp"
      { accessError := none, writeError := none, tmpDir := "/tmp", now := 0
        procDuration := 3, procOutcome := .fails "Command failed: dlv"
        abortTime := none, unlinkFails := false }).unlinkAttempted = false := by
  decide

/-- C4 (corrected): deletion of the temporary artifact is attempted
exactly on the success path (process completed, winning the race); on
process failure, timeout and cancellation paths no deletion is attempted.
On the success path the deletion failure is swallowed
(`.catch(() => \x7b\x7d)`): the trace is independent of whether the
unlink fails. -/
theorem unlink_only_on_success (pluginPath : String) (s : DlvPluginSettings)
    (content lang : String) (env : ExecEnv) :
    ((executeDlv pluginPath s content lang env).unlinkAttempted = true ↔
      (env.accessError = none ∧ env.writeError = none ∧
       raceWinner s.executionTimeout env.procDuration env.abortTime =
         RaceWinner.completion ∧
       ∃ out err, env.procOutcome = ProcOutcome.completes out err))
    ∧ (∀ b, executeDlv pluginPath s content lang { env with unlinkFails := b } =
        executeDlv pluginPath s content lang env) := by
  constructor
  · rcases hacc : env.accessError with _ | m1 <;>
      rcases hw : env.writeError with _ | m2 <;>
      rcases hr : raceWinner s.executionTimeout env.procDuration env.abortTime <;>
      rcases ho : env.procOutcome with ⟨out, err⟩ | m3 <;>
      simp [executeDlv, hacc, hw, hr, ho]
  · intro b
    rcases hacc : env.accessError with _ | m1 <;>
      rcases hw : env.writeError with _ | m2 <;>
      rcases hr : raceWinner s.executionTimeout env.procDuration env.abortTime <;>
      rcases ho : env.procOutcome with ⟨out, err⟩ | m3 <;>
      simp [executeDlv, hacc, hw, hr, ho]

/-- C8 counterexample: two distinct executions (the materialized source
texts differ) started in the same millisecond with the same language tag
get the SAME temporary artifact path — `Date.now()` is not collision-free
within a process run. -/
theorem tmp_names_collide_same_millisecond :
    (executeDlv "/plug" DEFAULT_SETTINGS "a." "asp"
      { accessError := none, writeError := none, tmpDir := "/tmp", now := 5
        procDuration := 3, procOutcome := .completes "x" "", abortTime := none
        unlinkFails := false }).tmpContent ≠
      (executeDlv "/plug" DEFAULT_SETTINGS "b." "asp"
      { accessError := none, writeError := none, tmpDir := "/tmp", now := 5
        procDuration := 3, procOutcome := .completes "x" "", abortTime := none
        unlinkFails := false }).tmpContent
    ∧ (executeDlv "/plug" DEFAULT_SETTINGS "a." "asp"
      { accessError := none, writeError := none, tmpDir := "/tmp", now := 5
        procDuration := 3, procOutcome := .completes "x" "", abortTime := none
        unlinkFails := false }).tmpPath =
      (executeDlv "/plug" DEFAULT_SETTINGS "b." "asp"
      { accessError := none, writeError := none, tmpDir := "/tmp", now := 5
        procDuration := 3, procOutcome := .completes "x" "", abortTime := none
        unlinkFails := false }).tmpPath := by
  decide

/-- C8 (corrected): temporary artifact paths coincide exactly when both
the millisecond timestamp and the language tag coincide — runs started in
distinct milliseconds, or with distinct tags, get distinct paths, but two
runs in the same millisecond with the same tag collide. -/
theorem tmpFilePath_collision_characterization (dir : String) (t₁ t₂ : Nat)
    (l₁ l₂ : String) :
    tmpFilePath dir t₁ l₁ = tmpFilePath dir t₂ l₂ ↔ t₁ = t₂ ∧ l₁ = l₂ := by
  constructor
  · intro h
    have hd := congrArg String.data h
    simp only [tmpFilePath, String.data_append, List.append_assoc] at hd
    have hd' := List.append_cancel_left (List.append_cancel_left hd)
    exact (tmpFileName_eq_iff t₁ t₂ l₁ l₂).mp (stringDataInj hd')
  · rintro ⟨rfl, rfl⟩
    rfl

/-- C5 counterexample: for a result with empty stdout and whitespace-only
(hence non-empty) stderr and `showErrors` off, the transient display
renders no error section (it tests `stderr.trim()`), while the durable
append does include the `% Errore` section (it tests raw `stderr`) — the
two sinks do not follow one rule keyed on raw non-emptiness. -/
theorem result_sinks_disagree_on_blank_stderr :
    updateOutputUI false { stdout := "", stderr := " " } = none
    ∧ containsErrore
        (saveExecutionResult false "ts" { stdout := "", stderr := " " }) = true := by
  decide

/-- C5 (corrected): the transient display renders stderr exactly when
`(showErrors OR stdout is whitespace-only)` and stderr is not
whitespace-only, while the durable append keys on the raw stderr being
non-empty; in particular the durable append of a result with empty
(whitespace-only) stdout and non-empty stderr always contains the
`% Errore` section, even with `showErrors` off. -/
theorem result_sinks_error_rules :
    (∀ se r, (updateOutputUI se r).isSome =
      ((se || !hasOutput r) && !(trimJS r.stderr).data.isEmpty))
    ∧ (∀ se ts r, hasOutput r = false → r.stderr ≠ "" →
        containsErrore (saveExecutionResult se ts r) = true) := by
  constructor
  · intro se r
    unfold updateOutputUI
    cases h : (se || !hasOutput r) && !(trimJS r.stderr).data.isEmpty
    · simp [h]
    · simp [h]
  · intro se ts r hout hserr
    obtain ⟨τ, hτ⟩ := percentLines_shape r.stderr
    unfold saveExecutionResult containsErrore
    rw [hout, hτ]
    simp only [Bool.not_false, Bool.or_true, if_true, Bool.false_eq_true,
      if_false, if_pos hserr, ite_true, ite_false]
    rw [containsSub_eq_true_iff]
    simp only [String.data_append]
    show ['%', ' ', 'E', 'r', 'r', 'o', 'r', 'e'] <:+: ['\n', '\n'] ++
      trimChars (['%', ' '] ++ ts.data ++ ['\n'] ++
        ['\n', '%', ' ', 'E', 'r', 'r', 'o', 'r', 'e', '\n'] ++ ('%' :: ' ' :: τ))
    have hL : ['%', ' '] ++ ts.data ++ ['\n'] ++
        ['\n', '%', ' ', 'E', 'r', 'r', 'o', 'r', 'e', '\n'] ++ ('%' :: ' ' :: τ) =
        ('%' :: ' ' :: (ts.data ++ [ '\n', '\n' ])) ++
          ['%', ' ', 'E', 'r', 'r', 'o', 'r', 'e'] ++ ('\n' :: '%' :: ' ' :: τ) := by
      simp
    rw [hL]
    obtain ⟨s, t, hst⟩ := trimChars_keeps_infix
      ('%' :: ' ' :: (ts.data ++ [ '\n', '\n' ]))
      ['%', ' ', 'E', 'r', 'r', 'o', 'r', 'e'] ('\n' :: '%' :: ' ' :: τ)
      ⟨'%', by simp, by decide⟩ ⟨'%', by simp, by decide⟩
    refine ⟨['\n', '\n'] ++ s, t, ?_⟩
    have := congrArg (fun x => ['\n', '\n'] ++ x) hst
    simpa [List.append_assoc] using this

/-- C5 witness: the amended rules at concrete results — a successful run
with `showErrors` on, and a failed run (empty stdout, non-empty stderr)
whose durable append contains the `% Errore` section with `showErrors`
off. -/
theorem result_sinks_error_rules_witness :
    (updateOutputUI true { stdout := "ok", stderr := "err" }).isSome =
      ((true || !hasOutput { stdout := "ok", stderr := "err" }) &&
        !(trimJS ({ stdout := "ok", stderr := "err" } : ExecutionResult).stderr).data.isEmpty)
    ∧ containsErrore
        (saveExecutionResult false "ts" { stdout := "", stderr := "boom" }) = true :=
  ⟨result_sinks_error_rules.1 true { stdout := "ok", stderr := "err" },
   result_sinks_error_rules.2 false "ts" { stdout := "", stderr := "boom" }
     (by decide) (by decide)⟩

/-- C7 counterexample: on a stderr with a rooted temporary path and a
`line 3: syntax error` message the cleaned output begins with
`Errore:` and the colon after the line number is dropped, so it does not
begin with the claimed `Error:\nline 3: syntax error`; and a temporary
filename with a non-`asp` extension is NOT replaced by the placeholder
(the regex hard-codes `.asp`). -/
theorem cleanErrors_scenario_counterexample :
    cleanErrors "/tmp/dlv-temp-1.asp: line 3: syntax error" =
      "Errore:\nline 3 syntax error"
    ∧ startsWithJS (cleanErrors "/tmp/dlv-temp-1.asp: line 3: syntax error")
        "Error:\nline 3: syntax error" = false
    ∧ cleanErrors "dlv-temp-5.dlv bad\n/tmp/x: line 3: syntax error" =
        "dlv-temp-5.dlv bad\nErrore:\nline 3 syntax error"
    ∧ containsSub "Input".data
        (cleanErrors "dlv-temp-5.dlv bad\n/tmp/x: line 3: syntax error").data
      = false := by
  decide

/-- C7 (corrected): for every stderr consisting of a rooted path token
(`/` followed by non-whitespace characters — covering the temporary
artifact name with ANY extension) and a ` line 3: syntax error` message,
`cleanErrors` removes the whole rooted path token and produces exactly
`"Errore:\nline 3 syntax error"`: the marker is `Errore:` (not `Error:`)
and the final `(line N): → Errore:\n$1` normalization drops the colon
after the line number.  The `Input` placeholder substitution applies only
to unrooted `dlv-temp-<digits>.asp` names. -/
theorem cleanErrors_rooted_path_scenario (p : List Char) (hp : p ≠ [])
    (hnws : ∀ c ∈ p, nonWs c = true) :
    cleanErrors ⟨'/' :: (p ++ (' ' :: "line 3: syntax error".data))⟩ =
      "Errore:\nline 3 syntax error" := by
  obtain ⟨d, p', rfl⟩ := List.exists_cons_of_ne_nil hp
  have hnl : ∀ c ∈ ('/' :: ((d :: p') ++ (' ' :: "line 3: syntax error".data))),
      (c == '\n') = false := by
    intro c hc
    rcases List.mem_cons.mp hc with rfl | hc
    · decide
    rcases List.mem_append.mp hc with hc | hc
    · have hnw := hnws c hc
      cases hne : (c == '\n')
      · rfl
      · rw [beq_iff_eq] at hne
        subst hne
        simp [nonWs, jsWs] at hnw
    · have hconc : ∀ x ∈ (' ' :: "line 3: syntax error".data), (x == '\n') = false := by
        decide
      exact hconc c hc
  have hsplit := splitChar_eq_single '\n' _ hnl
  have hd' : nonWs d = true := hnws d (List.mem_cons_self d p')
  have hpm : pathMatch ('/' :: ((d :: p') ++ (' ' :: "line 3: syntax error".data)))
      = some (' ' :: "line 3: syntax error".data) := by
    simp only [pathMatch, List.cons_append]
    rw [show isAsciiLetter '/' = false from rfl]
    simp only [Bool.false_eq_true, if_false, hd', if_true]
    rw [dropWhile_append_all nonWs p' _
      (fun c hc => hnws c (List.mem_cons_of_mem d hc))]
    rw [List.dropWhile_cons, show nonWs ' ' = false from rfl]
    simp
  have hrp : removePaths ('/' :: ((d :: p') ++ (' ' :: "line 3: syntax error".data)))
      = ' ' :: "line 3: syntax error".data := by
    unfold removePaths
    rw [List.length_cons]
    simp only [removePathsAux, hpm]
    rw [show pathMatch [' ', 'l', 'i', 'n', 'e', ' ', '3', ':', ' ',
      's', 'y', 'n', 't', 'a', 'x', ' ', 'e', 'r', 'r', 'o', 'r'] = none from rfl]
    rw [removePathsAux_congr _ 20 ['l', 'i', 'n', 'e', ' ', '3', ':', ' ',
      's', 'y', 'n', 't', 'a', 'x', ' ', 'e', 'r', 'r', 'o', 'r']
      (by simp) (by decide)]
    show ' ' :: removePathsAux 20 ['l', 'i', 'n', 'e', ' ', '3', ':', ' ',
      's', 'y', 'n', 't', 'a', 'x', ' ', 'e', 'r', 'r', 'o', 'r'] =
      [' ', 'l', 'i', 'n', 'e', ' ', '3', ':', ' ',
      's', 'y', 'n', 't', 'a', 'x', ' ', 'e', 'r', 'r', 'o', 'r']
    decide
  have hmel : mapErrorLine ('/' :: ((d :: p') ++ (' ' :: "line 3: syntax error".data)))
      = "line 3: syntax error".data := by
    simp only [mapErrorLine, hrp]
    decide
  show trimJS ⟨stripTrailingPunct (lineColon (List.intercalate [ '\n' ]
    (((splitChar '\n' ('/' :: ((d :: p') ++ (' ' :: "line 3: syntax error".data)))).map
      mapErrorLine).filter (fun l => !(trimChars l).isEmpty))))⟩ =
    "Errore:\nline 3 syntax error"
  rw [hsplit, List.map_singleton, hmel]
  decide

/-- C7 witness: the amended statement at a concrete rooted temporary path
with a non-`asp` extension. -/
theorem cleanErrors_rooted_path_scenario_witness :
    cleanErrors "/tmp/dlv-temp-7.prolog: line 3: syntax error" =
      "Errore:\nline 3 syntax error" := by
  have h := cleanErrors_rooted_path_scenario "tmp/dlv-temp-7.prolog:".data
    (by decide) (by decide)
  have he : ("/tmp/dlv-temp-7.prolog: line 3: syntax error" : String) =
      ⟨'/' :: ("tmp/dlv-temp-7.prolog:".data ++
        (' ' :: "line 3: syntax error".data))⟩ := by
    decide
  rw [he]
  exact h

end DlvPlugin
